import Mathlib

/-!
Shallow embedding of the response-value module (`src/value.rs`) of the
repository: the `Value` enum, its constructors, discriminators, narrowing
accessors, and the `ToInputValue` conversion, together with the structural
equality derived by `derive(PartialEq)`.
-/

set_option autoImplicit false

/-- Model of an IEEE-754 `f64` payload as far as the value model observes it:
a float is NaN, a signed infinity, or a finite value given by sign, mantissa
and binary exponent (value `(-1)^neg * mantissa * 2^exp`), assumed to be kept
in a canonical representation so that distinct representations denote
distinct nonzero reals. -/
inductive F64 where
  | nan : F64
  | inf (neg : Bool) : F64
  | finite (neg : Bool) (mantissa : Nat) (exp : Int) : F64
deriving DecidableEq, Repr

/-- IEEE-754 equality on the modelled `f64`: NaN compares unequal to
everything, itself included; the two signed zeros compare equal; finite
nonzero values compare componentwise (canonical representation). This is the
comparison Rust uses for the `Float` payload under `derive(PartialEq)`. -/
def F64.beq : F64 → F64 → Bool
  | .nan, _ => false
  | _, .nan => false
  | .inf a, .inf b => a == b
  | .finite s m e, .finite t n f => (m == 0 && n == 0) || (s == t && m == n && e == f)
  | _, _ => false

/-- The float literal 2.5, i.e. `5 * 2 ^ (-1)`, used by the scalar
round-trip examples. -/
def f64TwoPointFive : F64 := .finite false 5 (-1)

/-- Modelled from the spec: the source-span marker carried by the
literal-input type (the `parser` crate is not part of the sources); a span is
a pair of byte offsets. Only its presence or absence matters here. -/
structure SourceSpan where
  first : Nat
  last : Nat
deriving DecidableEq, Repr

/-- Modelled from the spec: `Spanning<T>`, a payload paired with an optional
source-span marker. -/
structure Spanning (α : Type) where
  item : α
  span : Option SourceSpan
deriving DecidableEq, Repr

/-- Modelled from the spec: `Spanning::unlocated`, wrapping a payload with the
span marker explicitly absent. -/
def Spanning.unlocated {α : Type} (x : α) : Spanning α :=
  { item := x, span := none }

/-- Modelled from the spec: the sibling literal-input type `InputValue`
(from the `ast` module, not part of the sources). Per the spec it has the
seven value variants plus enum names and variable references, with list
elements and object entries carrying optional span metadata. -/
inductive InputValue where
  | Null : InputValue
  | Int (i : Int) : InputValue
  | Float (f : F64) : InputValue
  | String (s : String) : InputValue
  | Boolean (b : Bool) : InputValue
  | Enum (s : String) : InputValue
  | Variable (s : String) : InputValue
  | List (l : List (Spanning InputValue)) : InputValue
  | Object (o : List (Spanning String × Spanning InputValue)) : InputValue
deriving Repr

/-- Rust `i32`, modelled as `Int`: the module never computes with the payload,
so no overflow can arise. -/
abbrev I32 : Type := Int

/-- Rust owned `String`. -/
abbrev Str : Type := String

/-- Rust `Vec`. -/
abbrev Vec (α : Type) : Type := List α

/-- `Value` (src/value.rs, lines 18-26): serializable value returned from
query and field execution. `i32` is modelled as `Int` (no arithmetic is ever
performed on it), `f64` as `F64`, and the `HashMap<String, Value>` backing of
`Object` as its list of entries in iteration order. -/
inductive Value where
  | Null : Value
  | Int (i : Int) : Value
  | Float (f : F64) : Value
  | String (s : String) : Value
  | Boolean (b : Bool) : Value
  | List (l : List Value) : Value
  | Object (o : List (String × Value)) : Value
deriving Repr

/-- Discriminant of a `Value`, numbering the seven variants in declaration
order. -/
def Value.tag : Value → Nat
  | .Null => 0
  | .Int _ => 1
  | .Float _ => 2
  | .String _ => 3
  | .Boolean _ => 4
  | .List _ => 5
  | .Object _ => 6

/-- Discriminant of an `InputValue`; the seven value variants are numbered as
in `Value.tag`, the two input-only variants after them. -/
def InputValue.tag : InputValue → Nat
  | .Null => 0
  | .Int _ => 1
  | .Float _ => 2
  | .String _ => 3
  | .Boolean _ => 4
  | .List _ => 5
  | .Object _ => 6
  | .Enum _ => 7
  | .Variable _ => 8

/-- `HashMap::get` on the entry-list model: the value stored at a key, if
present (entry lists built by the constructors have unique keys). -/
def lookupEntry : List (String × Value) → String → Option Value
  | [], _ => none
  | (k, v) :: rest, s => if k = s then some v else lookupEntry rest s

/-- `HashMap::insert` on the entry-list model: replace the value at an
existing key, else append a fresh entry. -/
def insertEntry : List (String × Value) → String → Value → List (String × Value)
  | [], k, v => [(k, v)]
  | (k', v') :: rest, k, v =>
      if k' = k then (k', v) :: rest else (k', v') :: insertEntry rest k v

/-- `Value::object` (src/value.rs, lines 50-56): the body of the constructor,
`o.into_iter().map(|(k, v)| (k.as_ref().to_owned(), v)).collect()`. The input
map is given by its entries in iteration order, `toStr` models
`AsRef<str>::as_ref` followed by `to_owned`, and `collect` into a fresh
`HashMap` inserts the pairs one by one. -/
def intoObjectEntries {K : Type} (toStr : K → String) (o : List (K × Value)) :
    List (String × Value) :=
  o.foldl (fun m kv => insertEntry m (toStr kv.1) kv.2) []

namespace Value

/-- `Value::null` (src/value.rs, line 32). -/
def null : Value := .Null

/-- `Value::int` (src/value.rs, line 35). -/
def int (i : I32) : Value := .Int i

/-- `Value::float` (src/value.rs, line 38). -/
def float (f : F64) : Value := .Float f

/-- `Value::string` (src/value.rs, line 41); `s.as_ref().to_owned()` is the
identity on the modelled owned strings. -/
def string (s : Str) : Value := .String s

/-- `Value::boolean` (src/value.rs, line 44). -/
def boolean (b : Bool) : Value := .Boolean b

/-- `Value::list` (src/value.rs, line 47). -/
def list (l : Vec Value) : Value := .List l

/-- `Value::object` (src/value.rs, lines 50-56). -/
def object {K : Type} (toStr : K → Str) (o : Vec (K × Value)) : Value :=
  .Object (intoObjectEntries toStr o)

/-- `Value::is_null` (src/value.rs, lines 61-66). -/
def is_null : Value → Bool
  | .Null => true
  | _ => false

/-- `Value::as_object_value` (src/value.rs, lines 69-74). -/
def as_object_value : Value → Option (Vec (Str × Value))
  | .Object o => some o
  | _ => none

/-- `Value::as_mut_object_value` (src/value.rs, lines 77-82): the same
narrowing as `as_object_value`; mutation through the returned reference is
modelled by `Value.setObjectEntries`. -/
def as_mut_object_value : Value → Option (Vec (Str × Value))
  | .Object o => some o
  | _ => none

/-- Write-back half of the `&mut HashMap` view handed out by
`as_mut_object_value`: replacing the entries of an `Object` in place. On any
other variant no mutable view exists, so the value is unchanged. -/
def setObjectEntries : Value → Vec (Str × Value) → Value
  | .Object _, o => .Object o
  | v, _ => v

/-- `Value::as_list_value` (src/value.rs, lines 85-90). -/
def as_list_value : Value → Option (Vec Value)
  | .List l => some l
  | _ => none

/-- `Value::as_string_value` (src/value.rs, lines 93-98). -/
def as_string_value : Value → Option Str
  | .String s => some s
  | _ => none

end Value

mutual

/-- `ToInputValue::to` for `Value` (src/value.rs, lines 101-115). -/
def Value.to : Value → InputValue
  | .Null => .Null
  | .Int i => .Int i
  | .Float f => .Float f
  | .String s => .String s
  | .Boolean b => .Boolean b
  | .List l => .List (toListAux l)
  | .Object o => .Object (toEntriesAux o)

/-- The list branch of `ToInputValue::to`:
`l.iter().map(|x| Spanning::unlocated(x.to())).collect()`. -/
def toListAux : List Value → List (Spanning InputValue)
  | [] => []
  | x :: xs => Spanning.unlocated (Value.to x) :: toListAux xs

/-- The object branch of `ToInputValue::to`:
`o.iter().map(|(k, v)| (Spanning::unlocated(k.clone()), Spanning::unlocated(v.to()))).collect()`. -/
def toEntriesAux : List (String × Value) → List (Spanning String × Spanning InputValue)
  | [] => []
  | (k, v) :: rest =>
      (Spanning.unlocated k, Spanning.unlocated (Value.to v)) :: toEntriesAux rest

end

mutual

/-- The `derive(PartialEq)` equality of `Value` (src/value.rs, line 16):
equal discriminants and equal payloads, where `f64` payloads compare by IEEE
equality, `Vec` payloads elementwise, and `HashMap` payloads by
`len() == len()` together with every entry of the left map being present
with an equal value in the right map. -/
def Value.beq : Value → Value → Bool
  | .Null, w => match w with | .Null => true | _ => false
  | .Int a, w => match w with | .Int b => a == b | _ => false
  | .Float a, w => match w with | .Float b => F64.beq a b | _ => false
  | .String a, w => match w with | .String b => a == b | _ => false
  | .Boolean a, w => match w with | .Boolean b => a == b | _ => false
  | .List a, w => match w with | .List b => beqList a b | _ => false
  | .Object a, w =>
      match w with
      | .Object b => (a.length == b.length) && beqEntries a b
      | _ => false

/-- `Vec<Value>` equality: elementwise, same length. -/
def beqList : List Value → List Value → Bool
  | [], b => b.isEmpty
  | _ :: _, [] => false
  | x :: xs, y :: ys => Value.beq x y && beqList xs ys

/-- One half of `HashMap` equality: every entry of the first map is present
in the second with an equal value
(`self.iter().all(|(k, v)| other.get(k).map_or(false, |w| *v == *w))`). -/
def beqEntries : List (String × Value) → List (String × Value) → Bool
  | [], _ => true
  | (k, v) :: rest, other =>
      (match lookupEntry other k with
       | some w => Value.beq v w
       | none => false) && beqEntries rest other

end

/-- Mutating an object field through the mutable narrowing accessor: models
the statement `if let Some(obj) = v.as_mut_object_value() { obj.insert(k, x); }`,
written with explicit state passing. -/
def insertField (v : Value) (k : Str) (x : Value) : Value :=
  match v.as_mut_object_value with
  | some o => v.setObjectEntries (insertEntry o k x)
  | none => v

/-- The object-equality clause of the structural-equality claim, transcribed
from its words: the two maps have the same key set (each key of one appears
among the keys of the other), and for every shared key the two stored values
are equal under the same structural equality. -/
def objEqSpec (m1 m2 : List (String × Value)) : Bool :=
  ((m1.map Prod.fst).all fun k => (m2.map Prod.fst).contains k) &&
  ((m2.map Prod.fst).all fun k => (m1.map Prod.fst).contains k) &&
  ((m1.map Prod.fst).all fun k =>
    match lookupEntry m1 k, lookupEntry m2 k with
    | some v, some w => Value.beq v w
    | _, _ => true)

theorem toListAux_length (xs : List Value) : (toListAux xs).length = xs.length := by
  induction xs with
  | nil => rfl
  | cons x xs ih => simp [toListAux, ih]

theorem toListAux_get (xs : List Value) (i : Nat) (h : i < xs.length)
    (h2 : i < (toListAux xs).length) :
    (toListAux xs).get ⟨i, h2⟩ = Spanning.unlocated (Value.to (xs.get ⟨i, h⟩)) := by
  induction xs generalizing i with
  | nil => cases h
  | cons x xs ih =>
    cases i with
    | zero => rfl
    | succ n =>
        exact ih n (Nat.lt_of_succ_lt_succ h)
          (by simpa [toListAux] using Nat.lt_of_succ_lt_succ h2)

theorem toEntriesAux_length (kvs : List (String × Value)) :
    (toEntriesAux kvs).length = kvs.length := by
  induction kvs with
  | nil => rfl
  | cons kv rest ih =>
    obtain ⟨k, v⟩ := kv
    simp [toEntriesAux, ih]

theorem toEntriesAux_get (kvs : List (String × Value)) (i : Nat) (h : i < kvs.length)
    (h2 : i < (toEntriesAux kvs).length) :
    (toEntriesAux kvs).get ⟨i, h2⟩ =
      (Spanning.unlocated (kvs.get ⟨i, h⟩).1,
       Spanning.unlocated (Value.to (kvs.get ⟨i, h⟩).2)) := by
  induction kvs generalizing i with
  | nil => cases h
  | cons kv rest ih =>
    obtain ⟨k, v⟩ := kv
    cases i with
    | zero => rfl
    | succ n =>
        exact ih n (Nat.lt_of_succ_lt_succ h)
          (by simpa [toEntriesAux] using Nat.lt_of_succ_lt_succ h2)

/-- C1: the conversion `ToInputValue::to` is total (it is a function defined
on all of `Value`) and maps each variant to the literal-input variant with
the corresponding tag: Null to null, Int to integer, Float to float, String
to string, Boolean to boolean, List to list, Object to object. -/
theorem to_total_tag_preserving (v : Value) : (Value.to v).tag = v.tag := by
  cases v <;> rfl

/-- C7: scalar conversions preserve the payload exactly: the integer 5, the
float 2.5, the string x and the boolean true are mapped to the same payloads,
and in general every Int, Float, String and Boolean payload — the float
payload is copied directly with no range or finiteness check, so NaN and
infinity are preserved as well. -/
theorem to_scalars_preserve_payload (i : I32) (f : F64) (s : Str) (b : Bool) :
    Value.to (Value.int 5) = InputValue.Int 5 ∧
    Value.to (Value.float f64TwoPointFive) = InputValue.Float f64TwoPointFive ∧
    Value.to (Value.string "x") = InputValue.String "x" ∧
    Value.to (Value.boolean true) = InputValue.Boolean true ∧
    Value.to (Value.int i) = InputValue.Int i ∧
    Value.to (Value.float f) = InputValue.Float f ∧
    Value.to (Value.float F64.nan) = InputValue.Float F64.nan ∧
    Value.to (Value.float (F64.inf false)) = InputValue.Float (F64.inf false) ∧
    Value.to (Value.string s) = InputValue.String s ∧
    Value.to (Value.boolean b) = InputValue.Boolean b :=
  ⟨rfl, rfl, rfl, rfl, rfl, rfl, rfl, rfl, rfl, rfl⟩

/-- C8: `is_null` returns true exactly on the value built by the `null`
constructor, and returns false on every Int, Float, String, Boolean, List
and Object value. -/
theorem is_null_iff_null (v : Value) (i : I32) (f : F64) (s : Str) (b : Bool)
    (xs : Vec Value) (kvs : Vec (Str × Value)) :
    (v.is_null = true ↔ v = Value.null) ∧
    Value.null.is_null = true ∧
    (Value.int i).is_null = false ∧
    (Value.float f).is_null = false ∧
    (Value.string s).is_null = false ∧
    (Value.boolean b).is_null = false ∧
    (Value.list xs).is_null = false ∧
    (Value.Object kvs).is_null = false := by
  refine ⟨?_, rfl, rfl, rfl, rfl, rfl, rfl, rfl⟩
  cases v <;> simp [Value.is_null, Value.null]

/-- C9: mutation law — starting from the empty object, inserting the entry
(k, Int 1) through the mutable view returned by `as_mut_object_value` makes
the read-only view `as_object_value` contain exactly that single entry. -/
theorem mutation_through_mut_object_view :
    (Value.object (fun k : Str => k) []).as_mut_object_value = some [] ∧
    (insertField (Value.object (fun k : Str => k) []) "k" (Value.int 1)).as_object_value =
      some [("k", Value.Int 1)] :=
  ⟨rfl, rfl⟩

/-- C10: the derived structural equality is not reflexive — a Float NaN
payload compares unequal to itself, directly, inside a list, and inside an
object, because the Float case uses IEEE-754 equality. -/
theorem beq_not_reflexive_on_nan :
    Value.beq (Value.float F64.nan) (Value.float F64.nan) = false ∧
    Value.beq (Value.list [Value.float F64.nan]) (Value.list [Value.float F64.nan]) = false ∧
    Value.beq (Value.Object [("a", Value.float F64.nan)])
      (Value.Object [("a", Value.float F64.nan)]) = false :=
  ⟨rfl, rfl, rfl⟩

/-- C2: converting a list converts each element recursively, wraps every
converted element in the unlocated marker (span absent) and preserves both
the length and the position of every element; in particular the list of
Int 1 and Null converts to the literal list of unlocated 1 and unlocated
null in that order. -/
theorem to_list_unlocated_order_preserving (xs : List Value) (i : Nat)
    (h : i < xs.length) (h2 : i < (toListAux xs).length) :
    Value.to (Value.list xs) = InputValue.List (toListAux xs) ∧
    (toListAux xs).length = xs.length ∧
    (toListAux xs).get ⟨i, h2⟩ = Spanning.unlocated (Value.to (xs.get ⟨i, h⟩)) ∧
    ((toListAux xs).get ⟨i, h2⟩).span = none ∧
    Value.to (Value.list [Value.int 1, Value.null]) =
      InputValue.List [Spanning.unlocated (InputValue.Int 1),
        Spanning.unlocated InputValue.Null] := by
  refine ⟨rfl, toListAux_length xs, toListAux_get xs i h h2, ?_, rfl⟩
  rw [toListAux_get xs i h h2]
  rfl

theorem to_list_unlocated_order_preserving_witness :
    Value.to (Value.list [Value.int 1, Value.null]) =
      InputValue.List (toListAux [Value.int 1, Value.null]) ∧
    (toListAux [Value.int 1, Value.null]).length = [Value.int 1, Value.null].length ∧
    (toListAux [Value.int 1, Value.null]).get ⟨0, by decide⟩ =
      Spanning.unlocated (Value.to ([Value.int 1, Value.null].get ⟨0, by decide⟩)) ∧
    ((toListAux [Value.int 1, Value.null]).get ⟨0, by decide⟩).span = none ∧
    Value.to (Value.list [Value.int 1, Value.null]) =
      InputValue.List [Spanning.unlocated (InputValue.Int 1),
        Spanning.unlocated InputValue.Null] :=
  to_list_unlocated_order_preserving [Value.int 1, Value.null] 0 (by decide) (by decide)

/-- C3: converting an object wraps each key as an unlocated string, converts
each value recursively and wraps it unlocated, and keeps the entry sequence
in the source iteration order; in particular the object with single key a
bound to the list of Int 1 converts to the literal object with one unlocated
entry whose value is the unlocated literal list of unlocated 1. -/
theorem to_object_unlocated_entries (kvs : List (Str × Value)) (i : Nat)
    (h : i < kvs.length) (h2 : i < (toEntriesAux kvs).length) :
    Value.to (Value.Object kvs) = InputValue.Object (toEntriesAux kvs) ∧
    (toEntriesAux kvs).length = kvs.length ∧
    (toEntriesAux kvs).get ⟨i, h2⟩ =
      (Spanning.unlocated (kvs.get ⟨i, h⟩).1,
       Spanning.unlocated (Value.to (kvs.get ⟨i, h⟩).2)) ∧
    ((toEntriesAux kvs).get ⟨i, h2⟩).1.span = none ∧
    ((toEntriesAux kvs).get ⟨i, h2⟩).2.span = none ∧
    Value.to (Value.object (fun k => k) [("a", Value.list [Value.int 1])]) =
      InputValue.Object [(Spanning.unlocated "a",
        Spanning.unlocated (InputValue.List [Spanning.unlocated (InputValue.Int 1)]))] := by
  refine ⟨rfl, toEntriesAux_length kvs, toEntriesAux_get kvs i h h2, ?_, ?_, rfl⟩
  · rw [toEntriesAux_get kvs i h h2]
    rfl
  · rw [toEntriesAux_get kvs i h h2]
    rfl

theorem to_object_unlocated_entries_witness :
    Value.to (Value.Object [("a", Value.list [Value.int 1])]) =
      InputValue.Object (toEntriesAux [("a", Value.list [Value.int 1])]) ∧
    (toEntriesAux [("a", Value.list [Value.int 1])]).length =
      [("a", Value.list [Value.int 1])].length ∧
    (toEntriesAux [("a", Value.list [Value.int 1])]).get ⟨0, by decide⟩ =
      (Spanning.unlocated ([("a", Value.list [Value.int 1])].get ⟨0, by decide⟩).1,
       Spanning.unlocated (Value.to ([("a", Value.list [Value.int 1])].get ⟨0, by decide⟩).2)) ∧
    ((toEntriesAux [("a", Value.list [Value.int 1])]).get ⟨0, by decide⟩).1.span = none ∧
    ((toEntriesAux [("a", Value.list [Value.int 1])]).get ⟨0, by decide⟩).2.span = none ∧
    Value.to (Value.object (fun k => k) [("a", Value.list [Value.int 1])]) =
      InputValue.Object [(Spanning.unlocated "a",
        Spanning.unlocated (InputValue.List [Spanning.unlocated (InputValue.Int 1)]))] :=
  to_object_unlocated_entries [("a", Value.list [Value.int 1])] 0 (by decide) (by decide)

theorem lookupEntry_insertEntry (m : List (String × Value)) (k s : String) (v : Value) :
    lookupEntry (insertEntry m k v) s = if k = s then some v else lookupEntry m s := by
  induction m with
  | nil => rfl
  | cons hd tl ih =>
    obtain ⟨k', v'⟩ := hd
    by_cases hk : k' = k
    · subst hk
      by_cases hs : k' = s <;> simp [insertEntry, lookupEntry, hs]
    · by_cases hs : k' = s
      · subst hs
        have hks : k ≠ k' := fun heq => hk heq.symm
        simp [insertEntry, lookupEntry, hk, hks]
      · simp [insertEntry, lookupEntry, hk, hs, ih]

theorem keys_insertEntry (m : List (String × Value)) (k : String) (v : Value) (a : String) :
    a ∈ (insertEntry m k v).map Prod.fst ↔ a ∈ m.map Prod.fst ∨ a = k := by
  induction m with
  | nil => simp [insertEntry]
  | cons hd tl ih =>
    obtain ⟨k', v'⟩ := hd
    by_cases hk : k' = k
    · subst hk
      simp [insertEntry]
      tauto
    · simp [insertEntry, hk, ih]
      tauto

theorem nodup_keys_insertEntry (m : List (String × Value)) (k : String) (v : Value)
    (h : (m.map Prod.fst).Nodup) : ((insertEntry m k v).map Prod.fst).Nodup := by
  induction m with
  | nil => simp [insertEntry]
  | cons hd tl ih =>
    obtain ⟨k', v'⟩ := hd
    rw [List.map_cons, List.nodup_cons] at h
    by_cases hk : k' = k
    · subst hk
      show (List.map Prod.fst
        (if k' = k' then (k', v) :: tl else (k', v') :: insertEntry tl k' v)).Nodup
      rw [if_pos rfl, List.map_cons, List.nodup_cons]
      exact h
    · show (List.map Prod.fst
        (if k' = k then (k', v) :: tl else (k', v') :: insertEntry tl k v)).Nodup
      rw [if_neg hk, List.map_cons, List.nodup_cons]
      refine ⟨?_, ih h.2⟩
      rw [keys_insertEntry]
      rintro (hmem | rfl)
      · exact h.1 hmem
      · exact hk rfl

theorem lookupEntry_foldl_insert {K : Type} (toStr : K → String) (o : List (K × Value))
    (m : List (String × Value)) (s : String) :
    lookupEntry (o.foldl (fun acc kv => insertEntry acc (toStr kv.1) kv.2) m) s =
      match o.reverse.find? (fun kv => toStr kv.1 == s) with
      | some kv => some kv.2
      | none => lookupEntry m s := by
  induction o generalizing m with
  | nil => rfl
  | cons hd tl ih =>
    rw [List.foldl_cons, ih, List.reverse_cons, List.find?_append]
    cases htl : tl.reverse.find? (fun kv => toStr kv.1 == s) with
    | some kv => simp
    | none =>
      rw [lookupEntry_insertEntry]
      by_cases hp : toStr hd.1 = s
      · simp [List.find?, hp]
      · have hb : (toStr hd.1 == s) = false := beq_eq_false_iff_ne.mpr hp
        simp [List.find?, hp, hb]

theorem nodup_keys_foldl_insert {K : Type} (toStr : K → String) (o : List (K × Value))
    (m : List (String × Value)) (h : (m.map Prod.fst).Nodup) :
    ((o.foldl (fun acc kv => insertEntry acc (toStr kv.1) kv.2) m).map Prod.fst).Nodup := by
  induction o generalizing m with
  | nil => exact h
  | cons hd tl ih =>
    rw [List.foldl_cons]
    exact ih _ (nodup_keys_insertEntry m (toStr hd.1) hd.2 h)

/-- C4: the `object` constructor is total and resolves key collisions by
last-write-wins: the built entry list has no duplicate keys, and looking up
any string in it returns the value of the last input entry whose key
normalizes to that string (none when no input key does); collisions are
resolved silently, never reported. -/
theorem object_last_write_wins {K : Type} (toStr : K → Str) (o : Vec (K × Value)) (s : Str) :
    Value.object toStr o = Value.Object (intoObjectEntries toStr o) ∧
    ((intoObjectEntries toStr o).map Prod.fst).Nodup ∧
    lookupEntry (intoObjectEntries toStr o) s =
      Option.map Prod.snd (o.reverse.find? fun kv => toStr kv.1 == s) := by
  refine ⟨rfl, nodup_keys_foldl_insert toStr o [] (by simp), ?_⟩
  rw [intoObjectEntries, lookupEntry_foldl_insert]
  cases o.reverse.find? (fun kv => toStr kv.1 == s) with
  | some kv => rfl
  | none => rfl

theorem insertEntry_of_fresh_key (m : List (String × Value)) (k : String) (v : Value)
    (h : k ∉ m.map Prod.fst) : insertEntry m k v = m ++ [(k, v)] := by
  induction m with
  | nil => rfl
  | cons hd tl ih =>
    obtain ⟨k', v'⟩ := hd
    rw [List.map_cons, List.mem_cons] at h
    push_neg at h
    show (if k' = k then (k', v) :: tl else (k', v') :: insertEntry tl k v) =
      (k', v') :: tl ++ [(k, v)]
    rw [if_neg (fun heq => h.1 heq.symm), ih h.2]
    rfl

theorem foldl_insert_fresh (m acc : List (String × Value))
    (h : (acc.map Prod.fst ++ m.map Prod.fst).Nodup) :
    m.foldl (fun a kv => insertEntry a kv.1 kv.2) acc = acc ++ m := by
  induction m generalizing acc with
  | nil => simp
  | cons hd tl ih =>
    obtain ⟨k, v⟩ := hd
    rw [List.foldl_cons]
    have hsplit := List.nodup_append.mp h
    have hk : k ∉ acc.map Prod.fst := by
      intro hmem
      exact hsplit.2.2 hmem (by simp)
    rw [insertEntry_of_fresh_key acc k v hk, ih (acc ++ [(k, v)])]
    · simp
    · simpa [List.append_assoc] using h

theorem intoObjectEntries_id_of_nodup (m : List (Str × Value))
    (h : (m.map Prod.fst).Nodup) : intoObjectEntries (fun k => k) m = m := by
  have := foldl_insert_fresh m [] (by simpa using h)
  simpa [intoObjectEntries] using this

/-- C5: the narrowing accessors invert their constructors and signal absence
otherwise: `as_list_value` on a constructed list returns exactly the given
sequence and returns none on every non-List variant; `as_object_value` on an
object constructed from a unique-keyed map returns exactly that map (same
key set, same value at every key) and returns none on every non-Object
variant. -/
theorem narrowing_accessors_invert_constructors (xs : Vec Value) (m : Vec (Str × Value))
    (u w : Value) (hm : (m.map Prod.fst).Nodup)
    (hu : u.tag ≠ 5) (hw : w.tag ≠ 6) :
    (Value.list xs).as_list_value = some xs ∧
    u.as_list_value = none ∧
    (Value.object (fun k => k) m).as_object_value = some m ∧
    w.as_object_value = none := by
  refine ⟨rfl, ?_, ?_, ?_⟩
  · cases u <;> first | rfl | exact absurd rfl hu
  · show (Value.Object (intoObjectEntries (fun k => k) m)).as_object_value = some m
    rw [intoObjectEntries_id_of_nodup m hm]
    rfl
  · cases w <;> first | rfl | exact absurd rfl hw

theorem narrowing_accessors_invert_constructors_witness :
    (Value.list [Value.null]).as_list_value = some [Value.null] ∧
    (Value.boolean true).as_list_value = none ∧
    (Value.object (fun k => k) [("a", Value.int 1)]).as_object_value =
      some [("a", Value.int 1)] ∧
    (Value.int 0).as_object_value = none :=
  narrowing_accessors_invert_constructors [Value.null] [("a", Value.int 1)]
    (Value.boolean true) (Value.int 0) (by decide) (by decide) (by decide)

theorem beqEntries_iff (m1 m2 : List (String × Value)) :
    beqEntries m1 m2 = true ↔
      ∀ kv ∈ m1, ∃ w, lookupEntry m2 kv.1 = some w ∧ Value.beq kv.2 w = true := by
  induction m1 with
  | nil => simp [beqEntries]
  | cons hd tl ih =>
    obtain ⟨k, v⟩ := hd
    show ((match lookupEntry m2 k with
      | some w => Value.beq v w
      | none => false) && beqEntries tl m2) = true ↔ _
    rw [Bool.and_eq_true, ih]
    cases hl : lookupEntry m2 k with
    | none => simp [hl]
    | some w => simp [hl]

theorem lookupEntry_mem_keys (m : List (String × Value)) (k : String) :
    (∃ v, lookupEntry m k = some v) ↔ k ∈ m.map Prod.fst := by
  induction m with
  | nil => simp [lookupEntry]
  | cons hd tl ih =>
    obtain ⟨k', v'⟩ := hd
    by_cases hk : k' = k
    · subst hk
      simp [lookupEntry]
    · have hk2 : k ≠ k' := fun heq => hk heq.symm
      simp [lookupEntry, hk, hk2, ih]

theorem mem_of_lookupEntry (m : List (String × Value)) (k : String) (v : Value)
    (h : lookupEntry m k = some v) : (k, v) ∈ m := by
  induction m with
  | nil => simp [lookupEntry] at h
  | cons hd tl ih =>
    obtain ⟨k', v'⟩ := hd
    by_cases hk : k' = k
    · subst hk
      rw [lookupEntry, if_pos rfl] at h
      rw [Option.some_inj] at h
      subst h
      exact List.mem_cons_self _ _
    · rw [lookupEntry, if_neg hk] at h
      exact List.mem_cons_of_mem _ (ih h)

theorem lookupEntry_of_mem_nodup (m : List (String × Value)) (k : String) (v : Value)
    (hnd : (m.map Prod.fst).Nodup) (hmem : (k, v) ∈ m) : lookupEntry m k = some v := by
  induction m with
  | nil => cases hmem
  | cons hd tl ih =>
    obtain ⟨k', v'⟩ := hd
    rw [List.map_cons, List.nodup_cons] at hnd
    rcases List.mem_cons.mp hmem with heq | htl
    · obtain ⟨hk, hv⟩ := Prod.mk.injEq .. ▸ heq
      subst hk
      subst hv
      rw [lookupEntry, if_pos rfl]
    · by_cases hk : k' = k
      · subst hk
        exact absurd (List.mem_map.mpr ⟨(k', v), htl, rfl⟩) hnd.1
      · rw [lookupEntry, if_neg hk]
        exact ih hnd.2 htl

theorem mem_subset_of_nodup_of_length (l1 l2 : List String) (h1 : l1.Nodup)
    (h2 : l2.Nodup) (hlen : l1.length = l2.length) (hsub : ∀ a ∈ l1, a ∈ l2) :
    ∀ a ∈ l2, a ∈ l1 := by
  have hfin : l1.toFinset ⊆ l2.toFinset := by
    intro a ha
    rw [List.mem_toFinset] at ha ⊢
    exact hsub a ha
  have hcard : l2.toFinset.card ≤ l1.toFinset.card := by
    rw [List.toFinset_card_of_nodup h1, List.toFinset_card_of_nodup h2, hlen]
  have heq := Finset.eq_of_subset_of_card_le hfin hcard
  intro a ha
  rw [← List.mem_toFinset, ← heq, List.mem_toFinset] at ha
  exact ha

theorem beq_object_eq_objEqSpec (m1 m2 : List (String × Value))
    (h1 : (m1.map Prod.fst).Nodup) (h2 : (m2.map Prod.fst).Nodup) :
    Value.beq (Value.Object m1) (Value.Object m2) = objEqSpec m1 m2 := by
  show ((m1.length == m2.length) && beqEntries m1 m2) = objEqSpec m1 m2
  rw [Bool.eq_iff_iff, Bool.and_eq_true, objEqSpec, Bool.and_eq_true, Bool.and_eq_true,
    beqEntries_iff, List.all_eq_true, List.all_eq_true, List.all_eq_true]
  constructor
  · rintro ⟨hlen, hent⟩
    have hlen' : m1.length = m2.length := by simpa using hlen
    have hsub1 : ∀ k ∈ m1.map Prod.fst, k ∈ m2.map Prod.fst := by
      intro k hk
      obtain ⟨p, hp, rfl⟩ := List.mem_map.mp hk
      obtain ⟨w, hw, _⟩ := hent p hp
      exact (lookupEntry_mem_keys m2 p.1).mp ⟨w, hw⟩
    have hsub2 : ∀ k ∈ m2.map Prod.fst, k ∈ m1.map Prod.fst :=
      mem_subset_of_nodup_of_length (m1.map Prod.fst) (m2.map Prod.fst) h1 h2
        (by simpa using hlen') hsub1
    refine ⟨⟨fun k hk => by simpa using hsub1 k hk,
             fun k hk => by simpa using hsub2 k hk⟩, ?_⟩
    intro k hk
    cases hl1 : lookupEntry m1 k with
    | none => simp
    | some v =>
        obtain ⟨w, hw, hbeq⟩ := hent (k, v) (mem_of_lookupEntry m1 k v hl1)
        rw [hw]
        simpa using hbeq
  · rintro ⟨⟨hc1, hc2⟩, hmatch⟩
    have hsub1 : ∀ k ∈ m1.map Prod.fst, k ∈ m2.map Prod.fst :=
      fun k hk => by simpa using hc1 k hk
    have hsub2 : ∀ k ∈ m2.map Prod.fst, k ∈ m1.map Prod.fst :=
      fun k hk => by simpa using hc2 k hk
    have hfin : (m1.map Prod.fst).toFinset = (m2.map Prod.fst).toFinset := by
      ext a
      simp only [List.mem_toFinset]
      exact ⟨hsub1 a, hsub2 a⟩
    have hlen : m1.length = m2.length := by
      have c1 := List.toFinset_card_of_nodup h1
      have c2 := List.toFinset_card_of_nodup h2
      rw [hfin, c2] at c1
      simpa using c1.symm
    refine ⟨by simpa using hlen, ?_⟩
    intro kv hkv
    have hk1 : kv.1 ∈ m1.map Prod.fst := List.mem_map.mpr ⟨kv, hkv, rfl⟩
    have hl1 : lookupEntry m1 kv.1 = some kv.2 :=
      lookupEntry_of_mem_nodup m1 kv.1 kv.2 h1 hkv
    obtain ⟨w, hw⟩ := (lookupEntry_mem_keys m2 kv.1).mpr (hsub1 kv.1 hk1)
    refine ⟨w, hw, ?_⟩
    have hm := hmatch kv.1 hk1
    rw [hl1, hw] at hm
    simpa using hm

/-- C6: the derived structural equality is variant-sensitive (equal values
have equal variant tags), and on two unique-keyed Object values it holds
exactly when the two maps have the same key set and equal values at every
shared key, independent of entry order. -/
theorem beq_variant_sensitive_object_ignores_order (a b : Value)
    (m1 m2 : List (Str × Value))
    (h1 : (m1.map Prod.fst).Nodup) (h2 : (m2.map Prod.fst).Nodup) :
    (Value.beq a b = true → a.tag = b.tag) ∧
    Value.beq (Value.Object m1) (Value.Object m2) = objEqSpec m1 m2 := by
  refine ⟨?_, beq_object_eq_objEqSpec m1 m2 h1 h2⟩
  cases a <;> cases b <;> simp [Value.beq, Value.tag]

theorem beq_variant_sensitive_object_ignores_order_witness :
    (Value.beq (Value.Object [("a", Value.Int 1), ("b", Value.Boolean true)])
        (Value.Object [("b", Value.Boolean true), ("a", Value.Int 1)]) = true →
      (Value.Object [("a", Value.Int 1), ("b", Value.Boolean true)]).tag =
        (Value.Object [("b", Value.Boolean true), ("a", Value.Int 1)]).tag) ∧
    Value.beq (Value.Object [("a", Value.Int 1), ("b", Value.Boolean true)])
        (Value.Object [("b", Value.Boolean true), ("a", Value.Int 1)]) =
      objEqSpec [("a", Value.Int 1), ("b", Value.Boolean true)]
        [("b", Value.Boolean true), ("a", Value.Int 1)] :=
  beq_variant_sensitive_object_ignores_order
    (Value.Object [("a", Value.Int 1), ("b", Value.Boolean true)])
    (Value.Object [("b", Value.Boolean true), ("a", Value.Int 1)])
    [("a", Value.Int 1), ("b", Value.Boolean true)]
    [("b", Value.Boolean true), ("a", Value.Int 1)]
    (by decide) (by decide)
